import Mathlib

/-
Verification development for the gsynox gene-identifier translator.
The repository ships only its packaging metadata, README and tutorial;
the python module itself is absent, so the data model and operations
below are modelled from the design spec (sections 3 and 4) and from the
concrete input/output pairs demonstrated in the tutorial.
-/

namespace Gsynox

/-- Modelled from the spec: the canonical-symbol namespace name.  The
tutorial's `get_info` lists it as the first registered database. -/
def symbol_ns : String := "symbol"

/-- Modelled from the spec: a group's external identifiers, a mapping
from namespace name to the ordered set of identifier strings. -/
abbrev NsIds := List (String × List String)

/-- Modelled from the spec: lookup of a namespace's identifier set in an
`external_ids` mapping; a namespace with no entry yields the empty set. -/
def lookupA : NsIds → String → List String
  | [], _ => []
  | p :: t, ns => if p.1 = ns then p.2 else lookupA t ns

/-- Modelled from the spec: add one identifier to an ordered set,
skipping it when already present (sets stay duplicate-free). -/
def addId (l : List String) (x : String) : List String :=
  if x ∈ l then l else l ++ [x]

/-- Modelled from the spec: add a batch of identifiers to an ordered
set, in order, skipping those already present. -/
def addIdsList (l : List String) (ids : List String) : List String :=
  ids.foldl addId l

/-- Modelled from the spec: update an `external_ids` mapping by adding
identifiers to one namespace's set, creating the entry when absent. -/
def insertNs : NsIds → String → List String → NsIds
  | [], ns, ids => [(ns, addIdsList [] ids)]
  | p :: t, ns, ids =>
    if p.1 = ns then (p.1, addIdsList p.2 ids) :: t else p :: insertNs t ns ids

/-- Modelled from the spec: a Gene Group, the index's atomic unit — one
canonical symbol, the alias set (canonical symbol included), and the
per-namespace external identifier sets. -/
structure GeneGroup where
  canonical_symbol : String
  aliases : List String
  external_ids : NsIds
deriving DecidableEq

/-- Modelled from the spec: the Alias Index (the tutorial's "master"
database), a partition of all known identifiers into gene groups. -/
structure Master where
  groups : List GeneGroup
deriving DecidableEq

/-- Modelled from the spec: the identifiers a group owns in a given
namespace — its alias set for the symbol namespace, otherwise the
namespace's external-identifier set. -/
def idsIn (g : GeneGroup) (ns : String) : List String :=
  if ns = symbol_ns then g.aliases else lookupA g.external_ids ns

/-- Modelled from the spec: resolve an identifier to its gene group via
one namespace; the first (by the global invariant, the only) group
owning the identifier there. -/
def resolve (m : Master) (ns id : String) : Option GeneGroup :=
  m.groups.find? (fun g => decide (id ∈ idsIn g ns))

/-- Modelled from the spec: a resolved group's candidate result set for
a target namespace: for the symbol namespace, the alias set with the
canonical symbol first and the remaining aliases in insertion order (the
tutorial shows the preferred-ids bias selects among all aliases, so the
alias list is always the symbol-side candidate set); for an external
namespace, the namespace's stored identifier list. -/
def candidates (g : GeneGroup) (toNs : String) : List String :=
  if toNs = symbol_ns then
    g.canonical_symbol :: g.aliases.filter (fun a => decide (a ≠ g.canonical_symbol))
  else lookupA g.external_ids toNs

/-- Modelled from the spec: the preferred-ids bias — intersect the
candidate set with the caller's preference list (keeping the preference
order); a non-empty intersection replaces the candidate set, an empty
one falls back to the full candidate set. -/
def applyPref : Option (List String) → List String → List String
  | none, cands => cands
  | some p, cands =>
    let inter := p.filter (fun x => decide (x ∈ cands))
    if inter = [] then cands else inter

/-- Modelled from the spec: a per-position translation result — a single
value under select-one, or the full candidate list. -/
inductive TValue where
  | one (s : String)
  | many (l : List String)
deriving DecidableEq

/-- Modelled from the spec: the two-case input contract — a single
identifier or an ordered sequence of identifiers. -/
inductive Ids where
  | one (s : String)
  | many (l : List String)
deriving DecidableEq

/-- Modelled from the spec: a shape-preserving result — scalar in gives
scalar out, sequence in gives sequence out. -/
inductive Res where
  | one (v : TValue)
  | many (l : List TValue)
deriving DecidableEq

/-- Modelled from the spec: translation of one identifier.  Unresolvable
input (or an empty candidate set) yields the null identifier; otherwise
the candidate set is gathered, the preferred-ids bias applied, and the
selection policy collapses it: with all-synonyms to the symbol namespace
the full list is returned (as the tutorial demonstrates), with
select-one the first element, otherwise the full list. -/
def translate1 (m : Master) (fromNs toNs : String) (selectOne allSynonyms : Bool)
    (preferredIds : Option (List String)) (nullId id : String) : TValue :=
  match resolve m fromNs id with
  | none => TValue.one nullId
  | some g =>
    let cands := candidates g toNs
    if cands = [] then TValue.one nullId
    else
      let sel := applyPref preferredIds cands
      if allSynonyms = true ∧ toNs = symbol_ns then TValue.many sel
      else if selectOne then TValue.one (sel.headD nullId)
      else TValue.many sel

/-- Modelled from the spec: the shape-preserving translate entry point —
one result for a single identifier, a positionwise list of results for a
sequence. -/
def translateL (m : Master) (fromNs toNs : String) (selectOne allSynonyms : Bool)
    (preferredIds : Option (List String)) (nullId : String) : Ids → Res
  | Ids.one s => Res.one (translate1 m fromNs toNs selectOne allSynonyms preferredIds nullId s)
  | Ids.many l => Res.many (l.map (translate1 m fromNs toNs selectOne allSynonyms preferredIds nullId))

/-- Modelled from the spec: synonym expansion of one identifier — the
resolved group's aliases with the canonical symbol itself excluded, in
stored order; unresolvable input yields the null identifier. -/
def synonyms1 (m : Master) (nullId id : String) : TValue :=
  match resolve m symbol_ns id with
  | none => TValue.one nullId
  | some g =>
    TValue.many ((candidates g symbol_ns).filter (fun a => decide (a ≠ g.canonical_symbol)))

/-- Modelled from the spec: the shape-preserving synonyms entry point. -/
def synonymsL (m : Master) (nullId : String) : Ids → Res
  | Ids.one s => Res.one (synonyms1 m nullId s)
  | Ids.many l => Res.many (l.map (synonyms1 m nullId))

/-- Modelled from the spec: cross-namespace translation — translate with
both namespaces taken as given, going through the shared gene group. -/
def cross_id (m : Master) (fromNs toNs : String) (selectOne : Bool) (nullId : String)
    (ids : Ids) : Res :=
  translateL m fromNs toNs selectOne false none nullId ids

/-- Modelled from the spec: generic symbol-to-namespace translation. -/
def symbol_to_id (m : Master) (ns : String) (selectOne : Bool) (nullId : String)
    (ids : Ids) : Res :=
  translateL m symbol_ns ns selectOne false none nullId ids

/-- Modelled from the spec: generic namespace-to-symbol translation. -/
def id_to_symbol (m : Master) (ns : String) (nullId : String) (ids : Ids) : Res :=
  translateL m ns symbol_ns true false none nullId ids

/-- Modelled from the spec: named shortcut to the Ensembl gene
namespace; the tutorial shows it returns one accession per input. -/
def symbol_to_ensembl_gene (m : Master) (nullId : String) (ids : Ids) : Res :=
  translateL m symbol_ns "ensembl_gene" true false none nullId ids

/-- Modelled from the spec: named shortcut to the Entrez namespace; the
tutorial shows it returns one identifier per input. -/
def symbol_to_entrez (m : Master) (nullId : String) (ids : Ids) : Res :=
  translateL m symbol_ns "entrez" true false none nullId ids

/-- Modelled from the spec: named shortcut to the HGNC namespace; the
tutorial shows it returns one identifier per input. -/
def symbol_to_hgnc (m : Master) (nullId : String) (ids : Ids) : Res :=
  translateL m symbol_ns "hgnc" true false none nullId ids

/-- Modelled from the spec: named shortcut to the UniProt namespace; the
tutorial shows it returns the full accession list per input, so unlike
the other shortcuts it does not select a single value. -/
def symbol_to_uniprot (m : Master) (nullId : String) (ids : Ids) : Res :=
  translateL m symbol_ns "uniprot" false false none nullId ids

/-- Modelled from the spec: named shortcut from the Ensembl gene
namespace to symbols, carrying the all-synonyms and preferred-ids
options the tutorial exercises; a single value is selected exactly when
all-synonyms is off. -/
def ensembl_gene_to_symbol (m : Master) (nullId : String) (allSynonyms : Bool)
    (preferredIds : Option (List String)) (ids : Ids) : Res :=
  translateL m "ensembl_gene" symbol_ns true allSynonyms preferredIds nullId ids

/-- Modelled from the spec: the Translation Engine instance — the master
index it reads plus its caller-configurable null identifier. -/
structure GSynoX where
  master : Master
  default_null_id : String
deriving DecidableEq

/-- Modelled from the spec: the engine's translate method, reading only
the engine's own index and null identifier. -/
def GSynoX.translate (e : GSynoX) (fromNs toNs : String) (selectOne allSynonyms : Bool)
    (preferredIds : Option (List String)) (ids : Ids) : Res :=
  translateL e.master fromNs toNs selectOne allSynonyms preferredIds e.default_null_id ids

/-- Modelled from the spec: the engine's synonyms method. -/
def GSynoX.synonyms (e : GSynoX) (ids : Ids) : Res :=
  synonymsL e.master e.default_null_id ids

/-- Modelled from the spec: build errors — a merge touching an
identifier owned by a different group, or a duplicate canonical symbol
on group creation. -/
inductive BuildErr where
  | conflictingAlias
  | duplicateCanonicalSymbol
deriving DecidableEq

/-- Modelled from the spec: the merge conflict test — some new
identifier already belongs to a different group's set for the target
namespace. -/
def hasConflict (m : Master) (g : GeneGroup) (ns : String) (ids : List String) : Bool :=
  ids.any (fun i => m.groups.any (fun h => decide (h ≠ g) && decide (i ∈ lookupA h.external_ids ns)))

/-- Modelled from the spec: extend one group's namespace set with new
identifiers (duplicates skipped). -/
def addIds (g : GeneGroup) (ns : String) (ids : List String) : GeneGroup :=
  { g with external_ids := insertNs g.external_ids ns ids }

/-- Modelled from the spec: `merge_into` — add identifiers to an
existing group's namespace set, failing with the conflicting-alias error
when any of them already belongs to a different group. -/
def merge_into (m : Master) (g : GeneGroup) (ns : String) (ids : List String) :
    Except BuildErr Master :=
  if hasConflict m g ns ids then Except.error BuildErr.conflictingAlias
  else Except.ok ⟨m.groups.map (fun h => if h = g then addIds g ns ids else h)⟩

/-- Modelled from the spec: `add_group` — create a new group, failing
with the duplicate-canonical-symbol error when the symbol already
anchors some group; no other ownership check is specified. -/
def add_group (m : Master) (sym : String) (al : List String) (ext : NsIds) :
    Except BuildErr Master :=
  if m.groups.any (fun h => decide (h.canonical_symbol = sym)) then
    Except.error BuildErr.duplicateCanonicalSymbol
  else Except.ok ⟨m.groups ++ [⟨sym, al, ext⟩]⟩

/-- Modelled from the spec: one Builder row — resolve the row's symbol;
extend the matching group's namespace set (conflict-checked) when it
resolves, otherwise create a fresh group anchored on the symbol with the
row's identifiers under the new namespace. -/
def addRow (m : Master) (ns sym : String) (ids : List String) : Except BuildErr Master :=
  match resolve m symbol_ns sym with
  | some g => merge_into m g ns ids
  | none => Except.ok ⟨m.groups ++ [⟨sym, [sym], insertNs [] ns ids⟩]⟩

/-- Modelled from the spec: the Builder's row loop with per-row
atomicity — rows are committed one by one and a failing row stops the
loop, keeping the rows already committed and reporting the error. -/
def addDbRows (m : Master) (ns : String) : List (String × List String) → Master × Option BuildErr
  | [] => (m, none)
  | r :: rest =>
    match addRow m ns r.1 r.2 with
    | Except.ok m' => addDbRows m' ns rest
    | Except.error e => (m, some e)

/-- Modelled from the spec: the Builder, owning its working copy of the
master index. -/
structure Builder where
  master : Master
deriving DecidableEq

/-- Modelled from the spec: the Builder's `add_db` — merge a parsed
two-column table into the Builder's own master copy under a namespace
name, returning the updated Builder and any per-row error. -/
def Builder.add_db (b : Builder) (rows : List (String × List String)) (ns : String) :
    Builder × Option BuildErr :=
  ((⟨(addDbRows b.master ns rows).1⟩ : Builder), (addDbRows b.master ns rows).2)

/-- Modelled from the spec: explicit adoption of a Builder's result by
the engine — the caller assigns the Builder's master back. -/
def GSynoX.adopt (e : GSynoX) (b : Builder) : GSynoX :=
  { e with master := b.master }

/-- Modelled from the spec: two groups share no alias string and, per
namespace, no external identifier. -/
def DisjointG (g1 g2 : GeneGroup) : Prop :=
  (∀ a, a ∈ g1.aliases → a ∉ g2.aliases) ∧
  (∀ ns i, i ∈ lookupA g1.external_ids ns → i ∉ lookupA g2.external_ids ns)

/-- Modelled from the spec: the global reverse-index invariant — every
alias string and every (namespace, external id) pair belongs to at most
one group. -/
def Inv (m : Master) : Prop :=
  m.groups.Pairwise DisjointG

/-- Modelled from the spec: structural well-formedness — every group's
alias set contains its canonical symbol. -/
def WF (m : Master) : Prop :=
  ∀ g ∈ m.groups, g.canonical_symbol ∈ g.aliases

/-- Modelled from the spec: a batch of aliases touching no existing
group. -/
def FreshAliases (m : Master) (al : List String) : Prop :=
  ∀ a ∈ al, ∀ h ∈ m.groups, a ∉ h.aliases

/-- Modelled from the spec: an external-id mapping touching no existing
group's sets. -/
def FreshExt (m : Master) (ext : NsIds) : Prop :=
  ∀ ns i, i ∈ lookupA ext ns → ∀ h ∈ m.groups, i ∉ lookupA h.external_ids ns

/-- Modelled from the spec: executable disjointness test between two
groups, bounded by the first group's stored namespaces. -/
def disjB (g1 g2 : GeneGroup) : Bool :=
  g1.aliases.all (fun a => decide (a ∉ g2.aliases)) &&
  g1.external_ids.all (fun p => p.2.all (fun i => decide (i ∉ lookupA g2.external_ids p.1)))

/-- Modelled from the spec: executable check of the global invariant. -/
def pairwiseB : List GeneGroup → Bool
  | [] => true
  | g :: t => t.all (fun h => disjB g h) && pairwiseB t

/-- Modelled from the spec: the FOXP2 gene group, reconstructed from the
tutorial's demonstrated translations. -/
def foxp2 : GeneGroup :=
  ⟨"FOXP2", ["FOXP2", "CAGH44", "SPCH1", "TNRC10"],
    [("ensembl_gene", ["ENSG00000128573"]), ("entrez", ["93986"]),
     ("hgnc", ["HGNC:13875"]),
     ("uniprot", ["A0A994J3Y0", "Q8N6B5", "A0A0U1RQY3", "F8WDL6", "Q75MZ5",
                  "A0A0U1RQR8", "X5D2H2", "Q0PRL4", "O15409", "A0A994J6W1",
                  "A8MUV4", "A0A0U1RQE0", "C9JQP8", "A0A0U1RQM2", "A8MTU2"])]⟩

/-- Modelled from the spec: the MYC gene group, reconstructed from the
tutorial's demonstrated translations. -/
def myc : GeneGroup :=
  ⟨"MYC", ["MYC", "MYCC", "bHLHe39", "c-Myc"],
    [("ensembl_gene", ["ENSG00000136997"]), ("entrez", ["4609"]),
     ("hgnc", ["HGNC:7553"]),
     ("uniprot", ["Q14899", "A0A494C1T8", "H0YBG3", "A0A0B4J1R1", "Q16591", "P01106"])]⟩

/-- Modelled from the spec: the CEBPA gene group, reconstructed from the
tutorial's demonstrated translations. -/
def cebpa : GeneGroup :=
  ⟨"CEBPA", ["CEBPA", "C/EBP-alpha", "CEBP"],
    [("ensembl_gene", ["ENSG00000245848"]), ("entrez", ["1050"]),
     ("hgnc", ["HGNC:1833"]), ("uniprot", ["P49715"])]⟩

/-- Modelled from the spec: a fragment of the shipped master index,
holding the three groups the tutorial exercises. -/
def tutMaster : Master := ⟨[foxp2, myc, cebpa]⟩

theorem mem_addId {l : List String} {x a : String} :
    a ∈ addId l x ↔ a ∈ l ∨ a = x := by
  unfold addId
  split
  · rename_i hx
    constructor
    · exact Or.inl
    · rintro (h | rfl)
      · exact h
      · exact hx
  · simp

theorem mem_addIdsList {ids : List String} :
    ∀ {l : List String} {a : String}, a ∈ addIdsList l ids ↔ a ∈ l ∨ a ∈ ids := by
  induction ids with
  | nil => intro l a; simp [addIdsList]
  | cons x xs ih =>
    intro l a
    have h1 : addIdsList l (x :: xs) = addIdsList (addId l x) xs := rfl
    rw [h1, ih, mem_addId]
    simp [or_assoc]

theorem lookupA_insertNs (l : NsIds) (ns : String) (ids : List String) (ns' : String) :
    lookupA (insertNs l ns ids) ns' =
      if ns' = ns then addIdsList (lookupA l ns) ids else lookupA l ns' := by
  induction l with
  | nil =>
    by_cases h : ns' = ns
    · simp [insertNs, lookupA, h]
    · have h2 : ¬ ns = ns' := fun hc => h hc.symm
      simp [insertNs, lookupA, h, h2]
  | cons p t ih =>
    by_cases hp : p.1 = ns
    · by_cases h : ns' = ns
      · subst h
        simp [insertNs, lookupA, hp]
      · have hp' : ¬ p.1 = ns' := fun hc => h (hp ▸ hc.symm ▸ rfl)
        simp only [insertNs, if_pos hp, lookupA, if_neg hp', if_neg h]
    · by_cases h : ns' = ns
      · subst h
        simp only [insertNs, if_neg hp, lookupA, if_pos rfl]
        have hp' : ¬ p.1 = ns' := hp
        simp [lookupA, hp', ih]
      · by_cases hq : p.1 = ns'
        · simp [insertNs, if_neg hp, lookupA, hq, h]
        · simp [insertNs, if_neg hp, lookupA, hq, h, ih]

theorem disjointG_symm {g1 g2 : GeneGroup} (h : DisjointG g1 g2) : DisjointG g2 g1 := by
  constructor
  · intro a ha2 ha1
    exact h.1 a ha1 ha2
  · intro ns i hi2 hi1
    exact h.2 ns i hi1 hi2

theorem disjB_sound {g1 g2 : GeneGroup} (h : disjB g1 g2 = true) : DisjointG g1 g2 := by
  unfold disjB at h
  rw [Bool.and_eq_true, List.all_eq_true, List.all_eq_true] at h
  constructor
  · intro a ha
    have := h.1 a ha
    exact of_decide_eq_true this
  · intro ns i hi
    have hne : lookupA g1.external_ids ns ≠ [] := by
      intro hnil
      rw [hnil] at hi
      exact List.not_mem_nil i hi
    -- the namespace must have a stored entry in g1
    revert hi hne
    have hfind : ∀ (l : NsIds), lookupA l ns ≠ [] → i ∈ lookupA l ns →
        (∀ p ∈ l, ∀ j ∈ p.2, decide (j ∉ lookupA g2.external_ids p.1) = true) →
        i ∉ lookupA g2.external_ids ns := by
      intro l
      induction l with
      | nil => intro hne _ _; exact absurd rfl hne
      | cons p t ih =>
        intro hne hi hall
        by_cases hp : p.1 = ns
        · rw [lookupA, if_pos hp] at hi
          have := hall p (List.mem_cons_self p t) i hi
          rw [hp] at this
          exact of_decide_eq_true this
        · rw [lookupA, if_neg hp] at hi hne
          exact ih hne hi (fun q hq => hall q (List.mem_cons_of_mem p hq))
    intro hi hne
    refine hfind g1.external_ids hne hi (fun p hp j hj => ?_)
    have hh := h.2 p hp
    rw [List.all_eq_true] at hh
    exact hh j hj

theorem pairwiseB_sound : ∀ {l : List GeneGroup}, pairwiseB l = true → l.Pairwise DisjointG := by
  intro l
  induction l with
  | nil => intro _; exact List.Pairwise.nil
  | cons g t ih =>
    intro h
    rw [pairwiseB, Bool.and_eq_true, List.all_eq_true] at h
    exact List.Pairwise.cons (fun h' hh => disjB_sound (h.1 h' hh)) (ih h.2)

theorem tutMaster_inv : Inv tutMaster :=
  pairwiseB_sound (by decide)

theorem tutMaster_wf : WF tutMaster := by
  intro g hg
  fin_cases hg <;> decide

theorem find_group {l : List GeneGroup} {g : GeneGroup} {ns id : String}
    (hp : l.Pairwise DisjointG) (hg : g ∈ l) (hid : id ∈ idsIn g ns) :
    l.find? (fun h => decide (id ∈ idsIn h ns)) = some g := by
  induction l with
  | nil => cases hg
  | cons h t ih =>
    rw [List.pairwise_cons] at hp
    rcases List.mem_cons.mp hg with rfl | hgt
    · rw [List.find?_cons_of_pos]
      exact decide_eq_true hid
    · have hdis : DisjointG h g := hp.1 g hgt
      have hnot : id ∉ idsIn h ns := by
        intro hmem
        by_cases hs : ns = symbol_ns
        · rw [idsIn, if_pos hs] at hmem
          rw [idsIn, if_pos hs] at hid
          exact hdis.1 id hmem hid
        · rw [idsIn, if_neg hs] at hmem
          rw [idsIn, if_neg hs] at hid
          exact hdis.2 ns id hmem hid
      rw [List.find?_cons_of_neg]
      · exact ih hp.2 hgt
      · simp [hnot]

theorem resolve_eq {m : Master} {g : GeneGroup} {ns id : String}
    (hInv : Inv m) (hg : g ∈ m.groups) (hid : id ∈ idsIn g ns) :
    resolve m ns id = some g :=
  find_group hInv hg hid

theorem resolve_mem {m : Master} {g : GeneGroup} {ns id : String}
    (h : resolve m ns id = some g) : g ∈ m.groups ∧ id ∈ idsIn g ns := by
  have h' : m.groups.find? (fun h => decide (id ∈ idsIn h ns)) = some g := h
  have hp := List.find?_some h'
  simp only [decide_eq_true_eq] at hp
  exact ⟨List.mem_of_find?_eq_some h', hp⟩

theorem translate1_one {m : Master} {fromNs toNs nullId s : String} {g : GeneGroup}
    (hres : resolve m fromNs s = some g) :
    translate1 m fromNs toNs true false none nullId s
      = TValue.one ((candidates g toNs).headD nullId) := by
  by_cases hc : candidates g toNs = []
  · simp [translate1, hres, hc]
  · simp [translate1, hres, hc, applyPref]

theorem trans_mem {m : Master} {g : GeneGroup} {A B nullId x : String}
    (hInv : Inv m) (hWF : WF m) (hg : g ∈ m.groups)
    (hx : x ∈ idsIn g A) (hB : idsIn g B ≠ []) :
    ∃ y, translate1 m A B true false none nullId x = TValue.one y ∧ y ∈ idsIn g B := by
  have hres := resolve_eq hInv hg hx
  rw [translate1_one hres]
  by_cases hBs : B = symbol_ns
  · subst hBs
    refine ⟨g.canonical_symbol, ?_, ?_⟩
    · rw [candidates, if_pos rfl]
      rfl
    · rw [idsIn, if_pos rfl]
      exact hWF g hg
  · have hcand : candidates g B = idsIn g B := by
      rw [candidates, if_neg hBs, idsIn, if_neg hBs]
    rw [hcand]
    cases hcase : idsIn g B with
    | nil => exact absurd hcase hB
    | cons y ys => exact ⟨y, by simp [hcase], hcase ▸ List.mem_cons_self y ys⟩

theorem pairwise_map_replace {l : List GeneGroup} {g g' : GeneGroup}
    (hp : l.Pairwise DisjointG) (hgg : ¬ DisjointG g g)
    (hc : ∀ a ∈ l, a ≠ g → DisjointG g' a ∧ DisjointG a g') :
    (l.map (fun h => if h = g then g' else h)).Pairwise DisjointG := by
  rw [List.pairwise_map]
  refine List.Pairwise.imp_of_mem ?_ hp
  intro a b ha hb hab
  by_cases hag : a = g <;> by_cases hbg : b = g
  · subst hag
    subst hbg
    exact absurd hab hgg
  · subst hag
    simp only [if_pos rfl, if_neg hbg]
    exact (hc b hb hbg).1
  · subst hbg
    simp only [if_neg hag, if_pos rfl]
    exact (hc a ha hag).2
  · simp only [if_neg hag, if_neg hbg]
    exact hab

theorem merge_into_conflict {m : Master} {g : GeneGroup} {ns : String} {ids : List String}
    (hcf : ∃ i ∈ ids, ∃ h ∈ m.groups, h ≠ g ∧ i ∈ lookupA h.external_ids ns) :
    merge_into m g ns ids = Except.error BuildErr.conflictingAlias := by
  have hb : hasConflict m g ns ids = true := by
    unfold hasConflict
    rw [List.any_eq_true]
    obtain ⟨i, hi, h, hh, hne, hmem⟩ := hcf
    refine ⟨i, hi, ?_⟩
    rw [List.any_eq_true]
    exact ⟨h, hh, by simp [hne, hmem]⟩
  simp [merge_into, hb]

theorem merge_into_inv {m : Master} {g : GeneGroup} {ns : String} {ids : List String} {m' : Master}
    (hInv : Inv m) (hWF : WF m) (hg : g ∈ m.groups)
    (hok : merge_into m g ns ids = Except.ok m') : Inv m' := by
  unfold merge_into at hok
  by_cases hcf : hasConflict m g ns ids = true
  · rw [if_pos hcf] at hok
    cases hok
  · rw [if_neg hcf] at hok
    cases hok
    have hfree : ∀ i ∈ ids, ∀ h ∈ m.groups, h ≠ g → i ∉ lookupA h.external_ids ns := by
      intro i hi h hh hne hmem
      apply hcf
      unfold hasConflict
      rw [List.any_eq_true]
      refine ⟨i, hi, ?_⟩
      rw [List.any_eq_true]
      exact ⟨h, hh, by simp [hne, hmem]⟩
    have hgg : ¬ DisjointG g g := fun hd => hd.1 g.canonical_symbol (hWF g hg) (hWF g hg)
    refine pairwise_map_replace hInv hgg ?_
    intro a ha hne
    have hag : DisjointG a g :=
      List.Pairwise.forall (fun _ _ hxy => disjointG_symm hxy) hInv ha hg hne
    have hga : DisjointG g a := disjointG_symm hag
    have hD : DisjointG (addIds g ns ids) a := by
      constructor
      · intro x hx
        exact hga.1 x hx
      · intro ns' i hi
        have hi' : i ∈ lookupA (insertNs g.external_ids ns ids) ns' := hi
        rw [lookupA_insertNs] at hi'
        by_cases hns : ns' = ns
        · rw [if_pos hns] at hi'
          rcases mem_addIdsList.mp hi' with hold | hnewid
          · subst hns
            exact hga.2 ns' i hold
          · subst hns
            exact hfree i hnewid a ha hne
        · rw [if_neg hns] at hi'
          exact hga.2 ns' i hi'
    exact ⟨hD, disjointG_symm hD⟩

theorem add_group_inv {m : Master} {sym : String} {al : List String} {ext : NsIds} {m' : Master}
    (hInv : Inv m) (hA : FreshAliases m al) (hE : FreshExt m ext)
    (hok : add_group m sym al ext = Except.ok m') : Inv m' := by
  unfold add_group at hok
  split at hok
  · cases hok
  · cases hok
    rw [Inv, List.pairwise_append]
    refine ⟨hInv, by simp, ?_⟩
    intro a ha b hb
    have hb' : b = (⟨sym, al, ext⟩ : GeneGroup) := by simpa using hb
    subst hb'
    constructor
    · intro x hx hx'
      exact hA x hx' a ha hx
    · intro ns' i hi hi'
      exact hE ns' i hi' a ha hi

theorem addRow_inv {m : Master} {ns sym : String} {ids : List String} {m' : Master}
    (hInv : Inv m) (hWF : WF m)
    (hfresh : resolve m symbol_ns sym = none →
      ∀ i ∈ ids, ∀ h ∈ m.groups, i ∉ lookupA h.external_ids ns)
    (hok : addRow m ns sym ids = Except.ok m') : Inv m' := by
  unfold addRow at hok
  cases hres : resolve m symbol_ns sym with
  | some g =>
    rw [hres] at hok
    exact merge_into_inv hInv hWF (resolve_mem hres).1 hok
  | none =>
    rw [hres] at hok
    cases hok
    rw [Inv, List.pairwise_append]
    refine ⟨hInv, by simp, ?_⟩
    intro a ha b hb
    have hb' : b = (⟨sym, [sym], insertNs [] ns ids⟩ : GeneGroup) := by simpa using hb
    subst hb'
    constructor
    · intro x hx hx'
      have hx2 : x = sym := by simpa using hx'
      subst hx2
      have h' : m.groups.find? (fun h => decide (x ∈ idsIn h symbol_ns)) = none := hres
      have := List.find?_eq_none.mp h' a ha
      simp only [decide_eq_true_eq] at this
      apply this
      rw [idsIn, if_pos rfl]
      exact hx
    · intro ns' i hi hnew
      rw [lookupA_insertNs] at hnew
      by_cases hns : ns' = ns
      · rw [if_pos hns] at hnew
        rcases mem_addIdsList.mp hnew with h0 | hids
        · simp [lookupA] at h0
        · subst hns
          exact hfresh hres i hids a ha hi
      · rw [if_neg hns] at hnew
        simp [lookupA] at hnew

theorem cons_filter_ne_perm {c : String} :
    ∀ {l : List String}, l.Nodup → c ∈ l →
      (c :: l.filter (fun a => decide (a ≠ c))).Perm l := by
  intro l
  induction l with
  | nil => intro _ h; cases h
  | cons x t ih =>
    intro hnd hc
    rw [List.nodup_cons] at hnd
    rcases List.mem_cons.mp hc with rfl | hct
    · have hfilter : t.filter (fun a => decide (a ≠ c)) = t := by
        rw [List.filter_eq_self]
        intro a ha
        simp only [decide_eq_true_eq]
        intro hac
        rw [hac] at ha
        exact hnd.1 ha
      have hstep : (c :: t).filter (fun a => decide (a ≠ c)) = t := by
        simp [List.filter_cons, hfilter]
        intro a ha hac
        rw [hac] at ha
        exact hnd.1 ha
      rw [hstep]
    · have hxc : ¬ x = c := fun h => hnd.1 (h ▸ hct)
      have hstep : (x :: t).filter (fun a => decide (a ≠ c))
          = x :: t.filter (fun a => decide (a ≠ c)) := by
        simp [List.filter_cons, hxc]
      rw [hstep]
      exact (List.Perm.swap x c _).trans ((ih hnd.2 hct).cons x)

/-- C1: for every gene group and every external namespace in which the
group has at least one identifier, translating any alias of the group
(canonical or not) from the symbol namespace into that namespace and
translating the result back returns the group's canonical symbol. -/
theorem c1_round_trip (m : Master) (g : GeneGroup) (ns nullId a : String)
    (hInv : Inv m) (hWF : WF m) (hg : g ∈ m.groups) (ha : a ∈ g.aliases)
    (hns : ns ≠ symbol_ns) (hids : lookupA g.external_ids ns ≠ []) :
    ∃ x, translate1 m symbol_ns ns true false none nullId a = TValue.one x
      ∧ translate1 m ns symbol_ns true false none nullId x
          = TValue.one g.canonical_symbol := by
  have hx : a ∈ idsIn g symbol_ns := by
    rw [idsIn, if_pos rfl]
    exact ha
  have hB : idsIn g ns ≠ [] := by
    rw [idsIn, if_neg hns]
    exact hids
  obtain ⟨y, hy1, hy2⟩ := trans_mem hInv hWF hg hx hB
  refine ⟨y, hy1, ?_⟩
  have hres2 := resolve_eq hInv hg hy2
  rw [translate1_one hres2, candidates, if_pos rfl]
  rfl

/-- C1 witness: the tutorial's MYC group — the alias MYCC goes out to
the Ensembl gene namespace and comes back as the canonical symbol. -/
theorem c1_witness :
    ∃ x, translate1 tutMaster symbol_ns "ensembl_gene" true false none "NA" "MYCC"
        = TValue.one x
      ∧ translate1 tutMaster "ensembl_gene" symbol_ns true false none "NA" x
          = TValue.one myc.canonical_symbol :=
  c1_round_trip tutMaster myc "ensembl_gene" "NA" "MYCC" tutMaster_inv tutMaster_wf
    (by decide) (by decide) (by decide) (by decide)

/-- C2 counterexample: `add_group` checks only canonical-symbol
duplication, so creating a group that reuses an alias already owned by
another group succeeds and leaves the index with the alias in two
groups, violating the at-most-one-group invariant without any error. -/
theorem c2_counterexample :
    add_group (Master.mk [GeneGroup.mk "A" ["A", "X"] []]) "B" ["B", "X"] []
      = Except.ok (Master.mk [GeneGroup.mk "A" ["A", "X"] [],
          GeneGroup.mk "B" ["B", "X"] []])
  ∧ ¬ Inv (Master.mk [GeneGroup.mk "A" ["A", "X"] [],
        GeneGroup.mk "B" ["B", "X"] []]) := by
  constructor
  · rfl
  · intro h
    have h2 := (List.pairwise_cons.mp h).1 (GeneGroup.mk "B" ["B", "X"] [])
      (List.mem_cons_self _ _)
    exact h2.1 "X" (by decide) (by decide)

/-- C2 (amended): in every well-formed state satisfying the invariant,
merge_into preserves the one-to-one reverse mapping and raises the
conflicting-alias error rather than reassigning an identifier owned by a
different group; a Builder row preserves it when the identifiers of a
group-creating (unresolved) row are fresh; add_group preserves it when
the supplied aliases and external identifiers are fresh — it checks only
canonical-symbol duplication, so freshness is a precondition rather than
a checked error for group creation. -/
theorem c2_amended_invariant (m : Master) (hInv : Inv m) (hWF : WF m) :
    (∀ g ns ids m', g ∈ m.groups → merge_into m g ns ids = Except.ok m' → Inv m')
  ∧ (∀ g ns ids, (∃ i ∈ ids, ∃ h ∈ m.groups, h ≠ g ∧ i ∈ lookupA h.external_ids ns) →
      merge_into m g ns ids = Except.error BuildErr.conflictingAlias)
  ∧ (∀ sym al ext m', FreshAliases m al → FreshExt m ext →
      add_group m sym al ext = Except.ok m' → Inv m')
  ∧ (∀ ns sym ids m',
      (resolve m symbol_ns sym = none →
        ∀ i ∈ ids, ∀ h ∈ m.groups, i ∉ lookupA h.external_ids ns) →
      addRow m ns sym ids = Except.ok m' → Inv m') :=
  ⟨fun _ _ _ _ hg hok => merge_into_inv hInv hWF hg hok,
   fun _ _ _ hcf => merge_into_conflict hcf,
   fun _ _ _ _ hA hE hok => add_group_inv hInv hA hE hok,
   fun _ _ _ _ hfresh hok => addRow_inv hInv hWF hfresh hok⟩

/-- C2 witness: merging the Entrez identifier of MYC into the FOXP2
group of the tutorial master raises the conflicting-alias error. -/
theorem c2_witness :
    merge_into tutMaster foxp2 "entrez" ["4609"]
      = Except.error BuildErr.conflictingAlias :=
  (c2_amended_invariant tutMaster tutMaster_inv tutMaster_wf).2.1 foxp2 "entrez" ["4609"]
    ⟨"4609", by decide, myc, by decide, by decide, by decide⟩

/-- C3: every translate-family operation preserves the shape of its
input — a single identifier yields a single result, and an ordered list
of N identifiers yields a list of exactly N results, order-preserving,
with one result per input position; likewise for synonyms. -/
theorem c3_shape (m : Master) (fromNs toNs : String) (selOne allSyn : Bool)
    (pref : Option (List String)) (nullId : String) :
    (∀ s, translateL m fromNs toNs selOne allSyn pref nullId (Ids.one s)
        = Res.one (translate1 m fromNs toNs selOne allSyn pref nullId s))
  ∧ (∀ l, ∃ r, translateL m fromNs toNs selOne allSyn pref nullId (Ids.many l) = Res.many r
      ∧ r.length = l.length
      ∧ ∀ (i : Nat) (hi : i < l.length) (hr : i < r.length),
          r.get ⟨i, hr⟩ = translate1 m fromNs toNs selOne allSyn pref nullId (l.get ⟨i, hi⟩))
  ∧ (∀ s, synonymsL m nullId (Ids.one s) = Res.one (synonyms1 m nullId s))
  ∧ (∀ l, ∃ r, synonymsL m nullId (Ids.many l) = Res.many r
      ∧ r.length = l.length
      ∧ ∀ (i : Nat) (hi : i < l.length) (hr : i < r.length),
          r.get ⟨i, hr⟩ = synonyms1 m nullId (l.get ⟨i, hi⟩)) := by
  refine ⟨fun s => rfl, fun l => ⟨_, rfl, by simp, ?_⟩, fun s => rfl,
    fun l => ⟨_, rfl, by simp, ?_⟩⟩
  · intro i hi hr
    simp [List.get_eq_getElem]
  · intro i hi hr
    simp [List.get_eq_getElem]

/-- C3 witness: the tutorial's three-symbol Entrez translation keeps the
list shape and order. -/
theorem c3_witness :
    ∃ r, translateL tutMaster symbol_ns "entrez" true false none "NA"
        (Ids.many ["FOXP2", "MYC", "CEBPA"]) = Res.many r
      ∧ r.length = ["FOXP2", "MYC", "CEBPA"].length
      ∧ ∀ (i : Nat) (hi : i < (["FOXP2", "MYC", "CEBPA"] : List String).length)
          (hr : i < r.length),
          r.get ⟨i, hr⟩ = translate1 tutMaster symbol_ns "entrez" true false none "NA"
            ((["FOXP2", "MYC", "CEBPA"] : List String).get ⟨i, hi⟩) :=
  (c3_shape tutMaster symbol_ns "entrez" true false none "NA").2.1 ["FOXP2", "MYC", "CEBPA"]

/-- C4: an identifier that resolves to no group is not an error — that
position yields the engine's default null identifier, the surrounding
positions of a list call are translated exactly as they would be alone,
and changing the engine's default null identifier changes the substitute
in subsequent calls. -/
theorem c4_missing_default (e : GSynoX) (fromNs toNs : String) (selOne allSyn : Bool)
    (pref : Option (List String)) (s u : String) (l1 l2 : List String)
    (h : resolve e.master fromNs s = none) :
    e.translate fromNs toNs selOne allSyn pref (Ids.one s)
      = Res.one (TValue.one e.default_null_id)
  ∧ e.translate fromNs toNs selOne allSyn pref (Ids.many (l1 ++ s :: l2))
      = Res.many (l1.map (translate1 e.master fromNs toNs selOne allSyn pref e.default_null_id)
          ++ TValue.one e.default_null_id
            :: l2.map (translate1 e.master fromNs toNs selOne allSyn pref e.default_null_id))
  ∧ (GSynoX.mk e.master u).translate fromNs toNs selOne allSyn pref (Ids.one s)
      = Res.one (TValue.one u) := by
  have h1 : ∀ nid, translate1 e.master fromNs toNs selOne allSyn pref nid s
      = TValue.one nid := by
    intro nid
    unfold translate1
    rw [h]
  refine ⟨?_, ?_, ?_⟩
  · show Res.one (translate1 e.master fromNs toNs selOne allSyn pref e.default_null_id s) = _
    rw [h1]
  · show Res.many ((l1 ++ s :: l2).map
        (translate1 e.master fromNs toNs selOne allSyn pref e.default_null_id)) = _
    rw [List.map_append, List.map_cons, h1]
  · show Res.one (translate1 e.master fromNs toNs selOne allSyn pref u s) = _
    rw [h1]

/-- C4 witness: the tutorial's FAKE1 or FAKE2 Ensembl identifiers
resolve to nothing, yield the null identifier in both positions, and an
engine whose null identifier is changed to "unknown" substitutes
"unknown" instead. -/
theorem c4_witness :
    (GSynoX.mk tutMaster "NA").translate "ensembl_gene" symbol_ns true false none
        (Ids.many ([] ++ "FAKE1" :: ["FAKE2"]))
      = Res.many (([] : List String).map
          (translate1 tutMaster "ensembl_gene" symbol_ns true false none "NA")
          ++ TValue.one "NA"
            :: (["FAKE2"] : List String).map
              (translate1 tutMaster "ensembl_gene" symbol_ns true false none "NA"))
  ∧ (GSynoX.mk tutMaster "unknown").translate "ensembl_gene" symbol_ns true false none
      (Ids.one "FAKE1") = Res.one (TValue.one "unknown") :=
  ⟨(c4_missing_default (GSynoX.mk tutMaster "NA") "ensembl_gene" symbol_ns true false none
      "FAKE1" "unknown" [] ["FAKE2"] (by decide)).2.1,
   (c4_missing_default (GSynoX.mk tutMaster "unknown") "ensembl_gene" symbol_ns true false
      none "FAKE1" "u2" [] [] (by decide)).1⟩

/-- C5 counterexample: the tutorial shows `symbol_to_uniprot` returning
the full accession list per input, not a single value, so select-one is
not the default of every named shortcut — were it, the MYC query would
return exactly the first stored accession. -/
theorem c5_counterexample :
    symbol_to_uniprot tutMaster "NA" (Ids.one "MYC")
      = Res.one (TValue.many ["Q14899", "A0A494C1T8", "H0YBG3", "A0A0B4J1R1",
          "Q16591", "P01106"])
  ∧ Res.one (TValue.many ["Q14899", "A0A494C1T8", "H0YBG3", "A0A0B4J1R1",
        "Q16591", "P01106"])
      ≠ Res.one (TValue.one "Q14899") := by
  constructor
  · decide
  · decide

/-- C5 (amended): when select-one is in effect — the default of the
named shortcuts other than `symbol_to_uniprot`, which returns the full
candidate list — the result at each position is exactly one value, the
first element of the candidate set after the ordering rule, with the
null identifier standing in for an empty candidate set. -/
theorem c5_amended_select_one (m : Master) (fromNs toNs nullId s : String) (g : GeneGroup)
    (hres : resolve m fromNs s = some g) :
    translate1 m fromNs toNs true false none nullId s
      = TValue.one ((candidates g toNs).headD nullId)
  ∧ (∀ ids, symbol_to_entrez m nullId ids
      = translateL m symbol_ns "entrez" true false none nullId ids)
  ∧ (∀ ids, symbol_to_uniprot m nullId ids
      = translateL m symbol_ns "uniprot" false false none nullId ids) :=
  ⟨translate1_one hres, fun _ => rfl, fun _ => rfl⟩

/-- C5 witness: FOXP2's Entrez translation under select-one is the first
stored Entrez identifier. -/
theorem c5_witness :
    translate1 tutMaster symbol_ns "entrez" true false none "NA" "FOXP2"
      = TValue.one ((candidates foxp2 "entrez").headD "NA") :=
  (c5_amended_select_one tutMaster symbol_ns "entrez" "NA" "FOXP2" foxp2 (by decide)).1

/-- C6 counterexample: the synonyms of the non-canonical alias MYCC are
the MYC group's aliases minus the canonical symbol, which still contain
MYCC itself — so "s never in synonyms(s)" fails for aliases. -/
theorem c6_counterexample :
    synonyms1 tutMaster "NA" "MYCC" = TValue.many ["MYCC", "bHLHe39", "c-Myc"]
  ∧ "MYCC" ∈ (["MYCC", "bHLHe39", "c-Myc"] : List String) := by
  constructor
  · decide
  · decide

/-- C6 (amended): for every identifier resolving to a group, synonyms
returns the group's aliases other than the canonical symbol — the
all-synonyms translation to the symbol namespace minus the canonical
symbol, order preserved; the identifier is in the synonym-inclusive
alias set, and the canonical symbol is never in the synonyms result (so
s is not in synonyms(s) exactly when s is the canonical symbol, while a
non-canonical alias can appear in its own synonyms). -/
theorem c6_synonyms (m : Master) (nullId s : String) (g : GeneGroup)
    (hres : resolve m symbol_ns s = some g) :
    synonyms1 m nullId s
      = TValue.many (g.aliases.filter (fun a => decide (a ≠ g.canonical_symbol)))
  ∧ (∀ selOne, translate1 m symbol_ns symbol_ns selOne true none nullId s
      = TValue.many (g.canonical_symbol ::
          g.aliases.filter (fun a => decide (a ≠ g.canonical_symbol))))
  ∧ s ∈ g.canonical_symbol :: g.aliases.filter (fun a => decide (a ≠ g.canonical_symbol))
  ∧ g.canonical_symbol ∉ g.aliases.filter (fun a => decide (a ≠ g.canonical_symbol)) := by
  have hcand : candidates g symbol_ns
      = g.canonical_symbol :: g.aliases.filter (fun a => decide (a ≠ g.canonical_symbol)) := by
    rw [candidates, if_pos rfl]
  refine ⟨?_, ?_, ?_, ?_⟩
  · simp only [synonyms1, hres]
    rw [hcand]
    have hff : (g.aliases.filter (fun a => decide (a ≠ g.canonical_symbol))).filter
        (fun a => decide (a ≠ g.canonical_symbol))
        = g.aliases.filter (fun a => decide (a ≠ g.canonical_symbol)) := by
      rw [List.filter_eq_self]
      intro a ha
      exact (List.mem_filter.mp ha).2
    simp [List.filter_cons, hff]
  · intro selOne
    simp [translate1, hres, hcand, applyPref]
  · have hs : s ∈ g.aliases := by
      have := (resolve_mem hres).2
      rw [idsIn, if_pos rfl] at this
      exact this
    by_cases hsc : s = g.canonical_symbol
    · rw [hsc]
      exact List.mem_cons_self _ _
    · exact List.mem_cons_of_mem _ (List.mem_filter.mpr ⟨hs, by simp [hsc]⟩)
  · intro h
    have := (List.mem_filter.mp h).2
    simp at this

/-- C6 witness: the tutorial's MYC synonyms — the aliases minus the
canonical symbol, excluding MYC itself. -/
theorem c6_witness :
    synonyms1 tutMaster "NA" "MYC"
      = TValue.many (myc.aliases.filter (fun a => decide (a ≠ myc.canonical_symbol)))
  ∧ myc.canonical_symbol
      ∉ myc.aliases.filter (fun a => decide (a ≠ myc.canonical_symbol)) :=
  ⟨(c6_synonyms tutMaster "NA" "MYC" myc (by decide)).1,
   (c6_synonyms tutMaster "NA" "MYC" myc (by decide)).2.2.2⟩

/-- C7: with preferred identifiers supplied, the candidate set is
intersected with the preference list; a non-empty intersection becomes
the result set in the preference list's order (so select-one returns the
first preferred candidate), and an empty intersection falls back to the
untouched behavior of the call without preferences. -/
theorem c7_preferred (m : Master) (fromNs toNs nullId s : String) (g : GeneGroup)
    (p : List String) (hres : resolve m fromNs s = some g)
    (hc : candidates g toNs ≠ []) :
    (p.filter (fun x => decide (x ∈ candidates g toNs)) ≠ [] →
        translate1 m fromNs toNs true false (some p) nullId s
          = TValue.one ((p.filter (fun x => decide (x ∈ candidates g toNs))).headD nullId)
      ∧ translate1 m fromNs toNs false false (some p) nullId s
          = TValue.many (p.filter (fun x => decide (x ∈ candidates g toNs))))
  ∧ (p.filter (fun x => decide (x ∈ candidates g toNs)) = [] →
      ∀ selOne allSyn, translate1 m fromNs toNs selOne allSyn (some p) nullId s
        = translate1 m fromNs toNs selOne allSyn none nullId s) := by
  constructor
  · intro hne
    constructor
    · simp [translate1, hres, hc, applyPref, hne]
    · simp [translate1, hres, hc, applyPref, hne]
  · intro hemp selOne allSyn
    simp [translate1, hres, hc, applyPref, hemp]

/-- C7 witness: the tutorial's preferred-alias scenario — translating
FOXP2's Ensembl identifier back to a symbol with preference list
[CAGH44, MYCC, C/EBP-alpha] yields CAGH44 under select-one and the
filtered preference list without it. -/
theorem c7_witness :
    translate1 tutMaster "ensembl_gene" symbol_ns true false
        (some ["CAGH44", "MYCC", "C/EBP-alpha"]) "NA" "ENSG00000128573"
      = TValue.one (((["CAGH44", "MYCC", "C/EBP-alpha"] : List String).filter
          (fun x => decide (x ∈ candidates foxp2 symbol_ns))).headD "NA")
  ∧ translate1 tutMaster "ensembl_gene" symbol_ns false false
        (some ["CAGH44", "MYCC", "C/EBP-alpha"]) "NA" "ENSG00000128573"
      = TValue.many ((["CAGH44", "MYCC", "C/EBP-alpha"] : List String).filter
          (fun x => decide (x ∈ candidates foxp2 symbol_ns))) :=
  (c7_preferred tutMaster "ensembl_gene" symbol_ns "NA" "ENSG00000128573" foxp2
    ["CAGH44", "MYCC", "C/EBP-alpha"] (by decide) (by decide)).1 (by decide)

/-- C8: for a resolved group, translating to the symbol namespace with
all-synonyms gives the group's entire alias set — the canonical symbol
first, the remaining aliases following in insertion order. -/
theorem c8_all_synonyms (m : Master) (fromNs nullId s : String) (g : GeneGroup)
    (selOne : Bool) (hres : resolve m fromNs s = some g)
    (hnd : g.aliases.Nodup) (hcan : g.canonical_symbol ∈ g.aliases) :
    translate1 m fromNs symbol_ns selOne true none nullId s
      = TValue.many (candidates g symbol_ns)
  ∧ candidates g symbol_ns
      = g.canonical_symbol :: g.aliases.filter (fun a => decide (a ≠ g.canonical_symbol))
  ∧ (candidates g symbol_ns).head? = some g.canonical_symbol
  ∧ (candidates g symbol_ns).Perm g.aliases := by
  have hcand : candidates g symbol_ns
      = g.canonical_symbol :: g.aliases.filter (fun a => decide (a ≠ g.canonical_symbol)) := by
    rw [candidates, if_pos rfl]
  refine ⟨?_, hcand, by rw [hcand]; rfl, ?_⟩
  · simp [translate1, hres, hcand, applyPref]
  · rw [hcand]
    exact cons_filter_ne_perm hnd hcan

/-- C8 witness: MYC's Ensembl identifier with all-synonyms yields the
full MYC alias list, canonical symbol first. -/
theorem c8_witness :
    translate1 tutMaster "ensembl_gene" symbol_ns false true none "NA" "ENSG00000136997"
      = TValue.many (candidates myc symbol_ns)
  ∧ (candidates myc symbol_ns).Perm myc.aliases :=
  ⟨(c8_all_synonyms tutMaster "ensembl_gene" "NA" "ENSG00000136997" myc false (by decide)
      (by decide) (by decide)).1,
   (c8_all_synonyms tutMaster "ensembl_gene" "NA" "ENSG00000136997" myc false (by decide)
      (by decide) (by decide)).2.2.2⟩

/-- C9: for every identifier resolving to a group through namespace A
such that the group also has identifiers in namespace B, a cross-id
translation A to B followed by B to A stays within the same gene group —
cross-namespace translation goes through the shared group. -/
theorem c9_cross_round (m : Master) (A B nullId x : String) (g : GeneGroup)
    (hInv : Inv m) (hWF : WF m) (hg : g ∈ m.groups)
    (hx : x ∈ idsIn g A) (hB : idsIn g B ≠ []) :
    ∃ y z, cross_id m A B true nullId (Ids.one x) = Res.one (TValue.one y)
      ∧ y ∈ idsIn g B
      ∧ cross_id m B A true nullId (Ids.one y) = Res.one (TValue.one z)
      ∧ z ∈ idsIn g A := by
  have h1 : ∃ y, translate1 m A B true false none nullId x = TValue.one y
      ∧ y ∈ idsIn g B := trans_mem hInv hWF hg hx hB
  obtain ⟨y, hy1, hy2⟩ := h1
  have hA : idsIn g A ≠ [] := List.ne_nil_of_mem hx
  have h2 : ∃ z, translate1 m B A true false none nullId y = TValue.one z
      ∧ z ∈ idsIn g A := trans_mem hInv hWF hg hy2 hA
  obtain ⟨z, hz1, hz2⟩ := h2
  exact ⟨y, z, by simp [cross_id, translateL, hy1], hy2,
    by simp [cross_id, translateL, hz1], hz2⟩

/-- C9 witness: the tutorial's MYC Ensembl identifier crosses to Entrez
and back within the MYC group. -/
theorem c9_witness :
    ∃ y z, cross_id tutMaster "ensembl_gene" "entrez" true "NA"
        (Ids.one "ENSG00000136997") = Res.one (TValue.one y)
      ∧ y ∈ idsIn myc "entrez"
      ∧ cross_id tutMaster "entrez" "ensembl_gene" true "NA" (Ids.one y)
          = Res.one (TValue.one z)
      ∧ z ∈ idsIn myc "ensembl_gene" :=
  c9_cross_round tutMaster "ensembl_gene" "entrez" "NA" "ENSG00000136997" myc
    tutMaster_inv tutMaster_wf (by decide) (by decide) (by decide)

/-- C10: Builder mutations touch only the Builder's own working copy —
the engine's queries are a function of the engine's own index and null
identifier alone, a Builder add-db computes purely from the Builder's
master, and only the explicit adoption step installs the Builder's
result into the engine (leaving the engine's null identifier intact). -/
theorem c10_builder_frame (e : GSynoX) (b : Builder)
    (rows : List (String × List String)) (ns : String) :
    (∀ fromNs toNs selOne allSyn pref ids,
        e.translate fromNs toNs selOne allSyn pref ids
          = translateL e.master fromNs toNs selOne allSyn pref e.default_null_id ids)
  ∧ (b.add_db rows ns).1.master = (addDbRows b.master ns rows).1
  ∧ (e.adopt (b.add_db rows ns).1).master = (addDbRows b.master ns rows).1
  ∧ (e.adopt (b.add_db rows ns).1).default_null_id = e.default_null_id :=
  ⟨fun _ _ _ _ _ _ => rfl, rfl, rfl, rfl⟩

end Gsynox
